import Mathlib

/-!
Verification of the monthly spend-analysis engine of a personal-finance app.

The engine lives in `finance-tracker/src/App.tsx`:

* `detectRecurring` (lines 179-201) scans the whole expense history per
  merchant across calendar months and reports merchants with a stable
  monthly spend;
* `analyze` (lines 203-265) filters one month and derives totals, category
  and merchant breakdowns, a need/want split, budget-overage flags,
  small-drain counts and per-category outliers;
* the suggestion ranker (lines 380-424) turns the analysis into at most
  five impact-ordered suggestions.

Modelling conventions, chosen once for the whole file:

* JavaScript numbers are modelled as exact rationals (`ℚ`).  All the
  arithmetic the engine performs (sums, means, population variances,
  comparisons against thresholds such as `0.2` and `2`) is treated as
  exact; float rounding is out of scope.  `Math.sqrt` comparisons are
  expressed without the square root: for `v ≥ 0`, `Math.sqrt v < t` holds
  iff `0 < t ∧ v < t ^ 2`, and `sd > 0 ∧ |d| / sd > 2` (with `sd =
  Math.sqrt v`) holds iff `0 < v ∧ 4 * v < d ^ 2`.  The theorems about
  outliers and recurrence restate the conditions with `Real.sqrt`, exactly
  as the source writes them, and prove the equivalence.
* The source derives a month key from a date with `monthKey` (line 136),
  which goes through JavaScript `Date` parsing.  The derivation is kept
  abstract: every definition and theorem is parameterised by the month-key
  function `mk : String → String`.  `monthKeyISO` below instantiates it
  for ISO `yyyy-mm-dd` dates, for which the source function returns the
  first seven characters.
* JavaScript dictionaries (`byCat`, `byMerchant`, ...) iterate their
  string keys in insertion order; a dictionary built by accumulation is
  modelled as the list of first occurrences of the keys (`dedupKeys`)
  paired with the value accumulated over all matching entries.
* `Array.prototype.sort` is stable (ECMAScript 2019).  Two stable sorts
  with the same total preorder produce identical output, so the model uses
  `List.insertionSort`, which Mathlib proves stable, with the preorder of
  the source comparator.
* One claim is about amounts that are not numbers (absent fields, `NaN`,
  strings).  For that claim only, the amount is modelled by `JSAmount` and
  a possibly-`NaN` number by `Option ℚ` (`none` = `NaN`); `Infinity` does
  not arise in the engine (no division by a zero denominator survives the
  guards) and string amounts whose numeric parse would be infinite are out
  of scope.  Everywhere else amounts are plain rationals, matching the
  declared TypeScript type `amount : number`.
-/

set_option allowUnsafeReducibility true in
attribute [semireducible] Rat.add Rat.mul Rat.sub Rat.inv Rat.ofScientific

namespace FinanceCoach

/-- Expense record (App.tsx lines 48-56).  The amount type is a parameter:
the main model instantiates it with `ℚ`, the malformed-amount model for the
coercion claim instantiates it with `JSAmount`. -/
structure Expense (α : Type) where
  id : String
  date : String
  amount : α
  category : String
  merchant : String
  note : String
  need : Bool
deriving DecidableEq

/-- Budget mapping (App.tsx lines 58-60): category name to monthly target.
A JavaScript object with string keys; modelled as an association list, a
key occurring at most once. -/
abbrev Budgets := List (String × ℚ)

/-- Lookup `budgets[c]` followed by the `Number(... || 0)`
coercion (App.tsx lines 228-229): an absent key yields `undefined`, which
is falsy, so the read degrades to `0`; a stored number passes through
`Number` unchanged. -/
def budgetOf (budgets : Budgets) (c : String) : ℚ :=
  match budgets.find? (fun p => p.1 == c) with
  | some p => p.2
  | none => 0

/-- First occurrences of the keys of a dictionary built by accumulation:
JavaScript objects with non-numeric string keys iterate in insertion
order.  Also models `new Set(list)` (App.tsx line 242), which iterates in
insertion order as well. -/
def dedupKeys {α : Type} [BEq α] (l : List α) : List α :=
  l.foldl (fun acc a => if acc.contains a then acc else acc.concat a) []

/-- Mean of a list of numbers, `arr.reduce((a,b) => a+b, 0) / arr.length`
(App.tsx lines 191, 245).  The engine only ever applies it to non-empty
lists; on `[]` the model returns `0 / 0 = 0` where JavaScript would
produce `NaN`. -/
def listMean (l : List ℚ) : ℚ := l.sum / l.length

/-- Population variance of a list of numbers,
`arr.reduce((s,x) => s + (x-mean)**2, 0) / arr.length` (App.tsx lines
194, 246).  The source only ever uses its square root `stdev`; the
comparisons against `stdev` are restated on the variance. -/
def listVar (l : List ℚ) : ℚ :=
  (l.map (fun x => (x - listMean l) ^ 2)).sum / l.length

/-- Month-key derivation for ISO `yyyy-mm-dd` dates: `monthKey` (App.tsx
lines 136-139) parses the date and prints `yyyy-mm`, the first seven
characters.  Used to instantiate the abstract month-key parameter in
concrete witnesses; JavaScript `Date` parsing itself is not modelled. -/
def monthKeyISO (d : String) : String := d.take 7

section JSValues

/-- Amount field of an expense record as JavaScript sees it before any
coercion: a finite number, the number `NaN`, a string (represented by its
JavaScript numeric parse, `none` when the parse is `NaN`; the empty string
parses to `0`), or an absent/undefined field. -/
inductive JSAmount : Type where
  | num (q : ℚ)
  | nan
  | str (parse : Option ℚ)
  | undef
deriving DecidableEq

/-- JavaScript number that may be `NaN`: `none` is `NaN`. -/
abbrev JSNum := Option ℚ

/-- Addition of JavaScript numbers: `NaN` absorbs. -/
def jadd : JSNum → JSNum → JSNum
  | some a, some b => some (a + b)
  | _, _ => none

/-- Evaluation of `Number(a || 0)` (App.tsx line 205): the falsy amounts
`0`, `NaN`, `""` and `undefined` are first replaced by `0`; `Number` then
maps a number to itself and a string to its numeric parse.  A non-empty
string that does not parse as a number yields `NaN`, not `0`. -/
def coerceOrZero : JSAmount → JSNum
  | .num q => some q
  | .nan => some 0
  | .str p => p
  | .undef => some 0

/-- Total of the in-month expenses exactly as `analyze` computes it on raw
JavaScript values (App.tsx lines 204-205):
`expenses.filter(e => monthKey(e.date) === month).reduce((s, e) => s + Number(e.amount || 0), 0)`. -/
def totalJS (mk : String → String) (expenses : List (Expense JSAmount))
    (month : String) : JSNum :=
  (expenses.filter (fun e => mk e.date == month)).foldl
    (fun s e => jadd s (coerceOrZero e.amount)) (some 0)

/-- Modelled from the spec: the replacement the specification prescribes
for an amount, "non-numeric/absent values are treated as zero" — a finite
number or a numerically-parsing string keeps its value, everything else
(absent field, `NaN`, non-numeric string) becomes `0`. -/
def specAmount : JSAmount → ℚ
  | .num q => q
  | .nan => 0
  | .str (some q) => q
  | .str none => 0
  | .undef => 0

/-- Modelled from the spec: the month total as the specification describes
it — the sum over the in-month expenses of their amounts with non-numeric
and absent amounts replaced by `0`. -/
def specTotal (mk : String → String) (expenses : List (Expense JSAmount))
    (month : String) : ℚ :=
  ((expenses.filter (fun e => mk e.date == month)).map
    (fun e => specAmount e.amount)).sum

end JSValues

/-- Category total entry of `catArr` (App.tsx line 217). -/
structure CatAmount where
  category : String
  amount : ℚ
deriving DecidableEq

/-- Merchant total entry of `topMerchants` (App.tsx lines 220-221). -/
structure MerchAmount where
  merchant : String
  amount : ℚ
deriving DecidableEq

/-- Budget overage entry of `budgetFlags` (App.tsx lines 225-230). -/
structure BudgetFlag where
  category : String
  amount : ℚ
  budget : ℚ
  overBy : ℚ
deriving DecidableEq

/-- Small-drain entry (App.tsx lines 237-239). -/
structure SmallDrain where
  merchant : String
  count : ℕ
deriving DecidableEq

/-- Recurring-merchant entry of `detectRecurring` (App.tsx line 197): the
stored mean is `Math.round`ed, hence an integer. -/
structure RecEntry where
  merchant : String
  mean : ℤ
  months : ℕ
deriving DecidableEq

/-- Need/want split (App.tsx line 208). -/
structure WantsNeeds where
  want : ℚ
  need : ℚ
deriving DecidableEq

/-- Analysis result (App.tsx lines 68-78 and 254-264). -/
structure Analysis where
  inMonth : List (Expense ℚ)
  total : ℚ
  catArr : List CatAmount
  topMerchants : List MerchAmount
  wantsNeeds : WantsNeeds
  budgetFlags : List BudgetFlag
  smallDrains : List SmallDrain
  outliers : List (Expense ℚ)
  recurring : List RecEntry
deriving DecidableEq

/-- Suggestion produced by the ranker (App.tsx lines 80-84).  The `body`
string is presentation only (currency formatting and a percentage); the
percentage it embeds is modelled separately by `trimWantsRatio`. -/
structure Suggestion where
  title : String
  impact : ℚ
deriving DecidableEq

/-- Descending preorder by a numeric key: the order of a JavaScript
comparator `(a, b) => key(b) - key(a)`.  An element `a` may precede `b`
exactly when `key b ≤ key a`. -/
def keyDesc {α β : Type} [LinearOrder β] (f : α → β) (a b : α) : Prop :=
  f b ≤ f a

instance {α β : Type} [LinearOrder β] (f : α → β) : DecidableRel (keyDesc f) :=
  fun a b => inferInstanceAs (Decidable (f b ≤ f a))

/-- Month filter (App.tsx line 204):
`expenses.filter(e => monthKey(e.date) === month)`. -/
def inMonthOf (mk : String → String) (expenses : List (Expense ℚ))
    (month : String) : List (Expense ℚ) :=
  expenses.filter (fun e => mk e.date == month)

/-- Month total (App.tsx line 205):
`inMonth.reduce((s, e) => s + Number(e.amount || 0), 0)`.  On a finite
numeric amount `Number(e.amount || 0)` is the identity (`0` is falsy but
`Number(0) = 0`), so the model adds the amounts directly. -/
def totalOf (inM : List (Expense ℚ)) : ℚ :=
  inM.foldl (fun s e => s + e.amount) 0

/-- Category totals dictionary `byCat` (App.tsx lines 206-217): keys in
first-occurrence order, each mapped to the sum of `Number(e.amount)` (the
identity on numbers) over the matching in-month expenses, then turned into
`{category, amount}` entries by `Object.entries`. -/
def catTotals (inM : List (Expense ℚ)) : List CatAmount :=
  (dedupKeys (inM.map (·.category))).map
    (fun c => ⟨c, ((inM.filter (fun e => e.category == c)).map (·.amount)).sum⟩)

/-- Sorted category totals `catArr` (App.tsx lines 217-218):
`.sort((a, b) => b.amount - a.amount)`, a stable descending sort. -/
def catArrOf (inM : List (Expense ℚ)) : List CatAmount :=
  (catTotals inM).insertionSort (keyDesc CatAmount.amount)

/-- Merchant totals dictionary `byMerchant` (App.tsx lines 207-215). -/
def merchTotals (inM : List (Expense ℚ)) : List MerchAmount :=
  (dedupKeys (inM.map (·.merchant))).map
    (fun m => ⟨m, ((inM.filter (fun e => e.merchant == m)).map (·.amount)).sum⟩)

/-- Top merchants (App.tsx lines 220-223): descending stable sort by
amount, truncated to five entries by `.slice(0, 5)`. -/
def topMerchantsOf (inM : List (Expense ℚ)) : List MerchAmount :=
  ((merchTotals inM).insertionSort (keyDesc MerchAmount.amount)).take 5

/-- Need/want split (App.tsx lines 208-215): each in-month expense adds
its amount to `need` when `e.need` holds and to `want` otherwise. -/
def wantsNeedsOf (inM : List (Expense ℚ)) : WantsNeeds :=
  inM.foldl
    (fun wn e =>
      if e.need then ⟨wn.want, wn.need + e.amount⟩ else ⟨wn.want + e.amount, wn.need⟩)
    ⟨0, 0⟩

/-- Budget flags (App.tsx lines 225-232): every sorted category total is
decorated with `budget = Number(budgets[c.category] || 0)` and
`overBy = Math.max(0, c.amount - budget)`, then filtered to
`c.budget > 0 && c.amount > c.budget` and stably sorted descending by
`overBy`. -/
def budgetFlagsOf (budgets : Budgets) (inM : List (Expense ℚ)) : List BudgetFlag :=
  (((catArrOf inM).map
      (fun c =>
        BudgetFlag.mk c.category c.amount (budgetOf budgets c.category)
          (max 0 (c.amount - budgetOf budgets c.category)))).filter
    (fun c => decide (0 < c.budget) && decide (c.budget < c.amount))).insertionSort
    (keyDesc BudgetFlag.overBy)

/-- Small drains (App.tsx lines 234-239): among in-month expenses with
`!e.need && e.amount < 200`, count occurrences per merchant
(first-occurrence key order) and keep merchants with `count >= 5`. -/
def smallDrainsOf (inM : List (Expense ℚ)) : List SmallDrain :=
  let smalls := inM.filter (fun e => !e.need && decide (e.amount < 200))
  ((dedupKeys (smalls.map (·.merchant))).map
      (fun m => SmallDrain.mk m ((smalls.filter (fun e => e.merchant == m)).length))).filter
    (fun s => decide (5 ≤ s.count))

/-- Outliers (App.tsx lines 241-252): for each distinct category of the
month (`new Set`, insertion order), let `arr` be its amounts; skip when
`arr.length < 3`; otherwise flag, in encounter order, each expense of the
category with `sd > 0 && Math.abs((e.amount - mean) / sd) > 2` where
`mean` and `sd` are the mean and population standard deviation of `arr`.
With `sd = Math.sqrt v` the flag condition is equivalent to
`0 < v ∧ 4 * v < (e.amount - mean) ^ 2`, the form used here (proved as
part of the outlier theorem). -/
def outliersOf (inM : List (Expense ℚ)) : List (Expense ℚ) :=
  (dedupKeys (inM.map (·.category))).flatMap
    (fun c =>
      let grp := inM.filter (fun e => e.category == c)
      let arr := grp.map (·.amount)
      if arr.length < 3 then []
      else
        grp.filter
          (fun e =>
            decide (0 < listVar arr) &&
              decide (4 * listVar arr < (e.amount - listMean arr) ^ 2)))

/-- Expenses of one merchant (App.tsx lines 180-186: the per-merchant
dictionary `byMerchant`). -/
def merchantExpenses (expenses : List (Expense ℚ)) (m : String) : List (Expense ℚ) :=
  expenses.filter (fun e => e.merchant == m)

/-- Distinct month keys of a merchant (App.tsx line 189:
`Object.keys(months).sort()`).  The source sorts the keys, but the sort
only permutes the list of monthly averages `sums`, and every quantity the
engine derives from it — `sums.length`, `avg(sums)` and the population
variance — is permutation-invariant, so the model keeps the keys in
first-occurrence order and omits the sort. -/
def merchantMonths (mk : String → String) (expenses : List (Expense ℚ))
    (m : String) : List String :=
  dedupKeys ((merchantExpenses expenses m).map (fun e => mk e.date))

/-- Average spend of one merchant in one month (App.tsx line 192:
`avg(months[m].map(e => e.amount))`). -/
def monthExpAvg (mk : String → String) (expenses : List (Expense ℚ))
    (m k : String) : ℚ :=
  listMean (((merchantExpenses expenses m).filter (fun e => mk e.date == k)).map (·.amount))

/-- Monthly averages `sums` of a merchant (App.tsx line 192), one per
distinct observed month. -/
def merchantMonthlyAvgs (mk : String → String) (expenses : List (Expense ℚ))
    (m : String) : List ℚ :=
  (merchantMonths mk expenses m).map (monthExpAvg mk expenses m)

/-- Recurrence detector (App.tsx lines 179-201): group the whole history
by merchant (insertion order), drop merchants with fewer than two distinct
month keys, and report each merchant whose monthly averages satisfy
`stdev < mean * 0.2` as `{merchant, mean: Math.round(mean), months}`;
result stably sorted descending by the rounded mean.  With
`stdev = Math.sqrt v`, `stdev < mean * 0.2` is equivalent to
`0 < mean * 0.2 ∧ v < (mean * 0.2) ^ 2`, the form used here (proved as
part of the recurrence theorem). -/
def detectRecurring (mk : String → String) (expenses : List (Expense ℚ)) :
    List RecEntry :=
  ((dedupKeys (expenses.map (·.merchant))).filterMap
      (fun m =>
        let mks := merchantMonths mk expenses m
        if mks.length < 2 then none
        else
          let sums := merchantMonthlyAvgs mk expenses m
          let mean := listMean sums
          let v := listVar sums
          if decide (0 < mean * 0.2) && decide (v < (mean * 0.2) ^ 2) then
            some ⟨m, round mean, mks.length⟩
          else none)).insertionSort
    (keyDesc RecEntry.mean)

/-- Aggregator (App.tsx lines 203-265): `analyze(expenses, budgets,
month)`, parameterised by the month-key derivation `mk`. -/
def analyze (mk : String → String) (expenses : List (Expense ℚ))
    (budgets : Budgets) (month : String) : Analysis :=
  let inM := inMonthOf mk expenses month
  { inMonth := inM
    total := totalOf inM
    catArr := catArrOf inM
    topMerchants := topMerchantsOf inM
    wantsNeeds := wantsNeedsOf inM
    budgetFlags := budgetFlagsOf budgets inM
    smallDrains := smallDrainsOf inM
    outliers := outliersOf inM
    recurring := detectRecurring mk expenses }

/-- Trim-wants candidate (App.tsx lines 382-389): emitted when
`wantsNeeds.want > 0`, `impact = want * 0.2`. -/
def trimWantsOf (a : Analysis) : List Suggestion :=
  if 0 < a.wantsNeeds.want then [⟨"Trim Wants", a.wantsNeeds.want * 0.2⟩] else []

/-- Percentage of total spend that is discretionary, as computed for the
trim-wants body (App.tsx line 383):
`(analysis.wantsNeeds.want / (analysis.total || 1)) * 100`.  In the
rational model the falsy test on `total` is the zero test, so a zero total
is replaced by the denominator `1`. -/
def trimWantsRatio (a : Analysis) : ℚ :=
  a.wantsNeeds.want / (if a.total = 0 then 1 else a.total) * 100

/-- Over-budget candidate (App.tsx lines 390-397): uses the first (hence
`overBy`-maximal) budget flag, `impact = Math.min(b.overBy, b.amount * 0.25)`. -/
def overBudgetOf (a : Analysis) : List Suggestion :=
  match a.budgetFlags with
  | b :: _ => [⟨"Over Budget: " ++ b.category, min b.overBy (b.amount * 0.25)⟩]
  | [] => []

/-- Frequent-small-spends candidate (App.tsx lines 398-405): uses the
first small drain, `impact = 100 * s.count * 0.4`. -/
def smallSpendsOf (a : Analysis) : List Suggestion :=
  match a.smallDrains with
  | s :: _ => [⟨"Frequent small spends at " ++ s.merchant, 100 * (s.count : ℚ) * 0.4⟩]
  | [] => []

/-- Top-merchant candidate (App.tsx lines 406-413): emitted when
`topMerchants[0]` exists, `impact = t.amount * 0.1`. -/
def topMerchantOf (a : Analysis) : List Suggestion :=
  match a.topMerchants with
  | t :: _ => [⟨"Top Merchant: " ++ t.merchant, t.amount * 0.1⟩]
  | [] => []

/-- Recurring-charge candidate (App.tsx lines 414-422): uses the first
recurring entry with `mean >= 200`, `impact = r.mean`. -/
def recurringSuggOf (a : Analysis) : List Suggestion :=
  match a.recurring.filter (fun r => decide (200 ≤ r.mean)) with
  | r :: _ => [⟨"Recurring: " ++ r.merchant, (r.mean : ℚ)⟩]
  | [] => []

/-- Candidate list of the ranker in generation order (App.tsx lines
381-422): each candidate is optional, so each contributes zero or one
entries. -/
def candidateList (a : Analysis) : List Suggestion :=
  trimWantsOf a ++ overBudgetOf a ++ smallSpendsOf a ++ topMerchantOf a ++ recurringSuggOf a

/-- Suggestion ranker output (App.tsx line 423):
`list.sort((a, b) => b.impact - a.impact).slice(0, 5)`, a stable
descending sort truncated to five. -/
def suggestions (a : Analysis) : List Suggestion :=
  ((candidateList a).insertionSort (keyDesc Suggestion.impact)).take 5

/-! ## Basic lemmas about the building blocks -/

instance {α β : Type} [LinearOrder β] (f : α → β) : IsTotal α (keyDesc f) :=
  ⟨fun a b => le_total (f b) (f a)⟩

instance {α β : Type} [LinearOrder β] (f : α → β) : IsTrans α (keyDesc f) :=
  ⟨fun _ _ _ h1 h2 => le_trans h2 h1⟩

theorem mem_dedup_foldl {α : Type} [BEq α] [LawfulBEq α] (l : List α) :
    ∀ (acc : List α) (x : α),
      x ∈ l.foldl (fun acc a => if acc.contains a then acc else acc.concat a) acc ↔
        x ∈ acc ∨ x ∈ l := by
  induction l with
  | nil => simp
  | cons a t ih =>
    intro acc x
    rw [List.foldl_cons, ih]
    by_cases h : acc.contains a
    · have ha : a ∈ acc := by simpa using h
      simp only [h, if_pos, List.mem_cons]
      constructor
      · rintro (hx | hx)
        · exact Or.inl hx
        · exact Or.inr (Or.inr hx)
      · rintro (hx | rfl | hx)
        · exact Or.inl hx
        · exact Or.inl ha
        · exact Or.inr hx
    · simp only [h, if_neg, Bool.false_eq_true, not_false_iff, List.concat_eq_append,
        List.mem_append, List.mem_singleton, List.mem_cons]
      tauto

theorem mem_dedupKeys {α : Type} [BEq α] [LawfulBEq α] (l : List α) (x : α) :
    x ∈ dedupKeys l ↔ x ∈ l := by
  rw [dedupKeys, mem_dedup_foldl]
  simp

theorem nodup_dedup_foldl {α : Type} [BEq α] [LawfulBEq α] (l : List α) :
    ∀ acc : List α, acc.Nodup →
      (l.foldl (fun acc a => if acc.contains a then acc else acc.concat a) acc).Nodup := by
  induction l with
  | nil => simpa using fun acc h => h
  | cons a t ih =>
    intro acc hacc
    rw [List.foldl_cons]
    by_cases h : acc.contains a
    · have ha : a ∈ acc := by simpa using h
      have hstep : (if acc.contains a then acc else acc.concat a) = acc := by simp [ha]
      rw [hstep]
      exact ih acc hacc
    · have ha : a ∉ acc := by simpa using h
      have hstep : (if acc.contains a then acc else acc.concat a) = acc ++ [a] := by
        simp [ha]
      rw [hstep]
      refine ih _ ?_
      simpa [List.nodup_append] using ⟨hacc, ha⟩

theorem nodup_dedupKeys {α : Type} [BEq α] [LawfulBEq α] (l : List α) :
    (dedupKeys l).Nodup :=
  nodup_dedup_foldl l [] List.nodup_nil

theorem foldl_add_eq_sum (l : List (Expense ℚ)) :
    ∀ s : ℚ, l.foldl (fun s e => s + e.amount) s = s + (l.map (·.amount)).sum := by
  induction l with
  | nil => simp
  | cons e t ih => intro s; simp [ih, add_assoc]

theorem totalOf_eq_sum (inM : List (Expense ℚ)) :
    totalOf inM = (inM.map (·.amount)).sum := by
  rw [totalOf, foldl_add_eq_sum, zero_add]

theorem wantsNeedsOf_aux (l : List (Expense ℚ)) :
    ∀ wn : WantsNeeds,
      l.foldl
          (fun wn e =>
            if e.need then ⟨wn.want, wn.need + e.amount⟩
            else ⟨wn.want + e.amount, wn.need⟩) wn =
        ⟨wn.want + ((l.filter (fun e => !e.need)).map (·.amount)).sum,
          wn.need + ((l.filter (fun e => e.need)).map (·.amount)).sum⟩ := by
  induction l with
  | nil => simp
  | cons e t ih =>
    intro wn
    rw [List.foldl_cons, ih]
    by_cases h : e.need <;> simp [h, List.filter_cons, add_assoc]

theorem wantsNeedsOf_eq (inM : List (Expense ℚ)) :
    wantsNeedsOf inM =
      ⟨((inM.filter (fun e => !e.need)).map (·.amount)).sum,
        ((inM.filter (fun e => e.need)).map (·.amount)).sum⟩ := by
  rw [wantsNeedsOf, wantsNeedsOf_aux]
  simp

theorem sum_filter_split (l : List (Expense ℚ)) (p : Expense ℚ → Bool)
    (f : Expense ℚ → ℚ) :
    (l.map f).sum =
      ((l.filter p).map f).sum + ((l.filter (fun e => !p e)).map f).sum := by
  induction l with
  | nil => simp
  | cons e t ih =>
    by_cases h : p e <;> simp [List.filter_cons, h, ih] <;> ring

theorem sum_over_keys (key : Expense ℚ → String) (f : Expense ℚ → ℚ) :
    ∀ ks : List String, ks.Nodup → ∀ l : List (Expense ℚ), (∀ e ∈ l, key e ∈ ks) →
      (ks.map (fun c => ((l.filter (fun e => key e == c)).map f).sum)).sum =
        (l.map f).sum := by
  intro ks
  induction ks with
  | nil =>
    intro _ l hcov
    have hl : l = [] := by
      cases l with
      | nil => rfl
      | cons e t => exact absurd (hcov e (List.mem_cons_self e t)) (List.not_mem_nil _)
    simp [hl]
  | cons c ks ih =>
    intro hnd l hcov
    have hc : c ∉ ks := (List.nodup_cons.mp hnd).1
    have hnd' : ks.Nodup := (List.nodup_cons.mp hnd).2
    rw [List.map_cons, List.sum_cons]
    have hks :
        ks.map (fun c' => ((l.filter (fun e => key e == c')).map f).sum) =
          ks.map (fun c' =>
            (((l.filter (fun e => !(key e == c))).filter (fun e => key e == c')).map f).sum) := by
      apply List.map_congr_left
      intro c' hc'
      rw [List.filter_filter]
      have : l.filter (fun e => key e == c') =
          l.filter (fun e => (key e == c') && !(key e == c)) := by
        apply List.filter_congr
        intro e _
        by_cases h : key e == c'
        · have hkey : key e = c' := by simpa using h
          have hcc : c' ≠ c := fun hcc => hc (hcc ▸ hc')
          have hne : key e ≠ c := by rw [hkey]; exact hcc
          simp [h, hne]
        · simp [h]
      rw [this]
    rw [hks, ih hnd' _ ?_]
    · exact (sum_filter_split l (fun e => key e == c) f).symm
    · intro e he
      have he' := List.mem_filter.mp he
      have : key e ∈ c :: ks := hcov e he'.1
      rcases List.mem_cons.mp this with h | h
      · exact absurd h (by simpa using he'.2)
      · exact h

/-! ## The fields of `analyze` -/

theorem analyze_inMonth (mk : String → String) (expenses : List (Expense ℚ))
    (budgets : Budgets) (month : String) :
    (analyze mk expenses budgets month).inMonth = inMonthOf mk expenses month := rfl

theorem analyze_total (mk : String → String) (expenses : List (Expense ℚ))
    (budgets : Budgets) (month : String) :
    (analyze mk expenses budgets month).total = totalOf (inMonthOf mk expenses month) := rfl

theorem analyze_catArr (mk : String → String) (expenses : List (Expense ℚ))
    (budgets : Budgets) (month : String) :
    (analyze mk expenses budgets month).catArr = catArrOf (inMonthOf mk expenses month) := rfl

theorem analyze_topMerchants (mk : String → String) (expenses : List (Expense ℚ))
    (budgets : Budgets) (month : String) :
    (analyze mk expenses budgets month).topMerchants =
      topMerchantsOf (inMonthOf mk expenses month) := rfl

theorem analyze_wantsNeeds (mk : String → String) (expenses : List (Expense ℚ))
    (budgets : Budgets) (month : String) :
    (analyze mk expenses budgets month).wantsNeeds =
      wantsNeedsOf (inMonthOf mk expenses month) := rfl

theorem analyze_budgetFlags (mk : String → String) (expenses : List (Expense ℚ))
    (budgets : Budgets) (month : String) :
    (analyze mk expenses budgets month).budgetFlags =
      budgetFlagsOf budgets (inMonthOf mk expenses month) := rfl

theorem analyze_smallDrains (mk : String → String) (expenses : List (Expense ℚ))
    (budgets : Budgets) (month : String) :
    (analyze mk expenses budgets month).smallDrains =
      smallDrainsOf (inMonthOf mk expenses month) := rfl

theorem analyze_outliers (mk : String → String) (expenses : List (Expense ℚ))
    (budgets : Budgets) (month : String) :
    (analyze mk expenses budgets month).outliers =
      outliersOf (inMonthOf mk expenses month) := rfl

theorem analyze_recurring (mk : String → String) (expenses : List (Expense ℚ))
    (budgets : Budgets) (month : String) :
    (analyze mk expenses budgets month).recurring = detectRecurring mk expenses := rfl

/-! ## Sorting facts -/

theorem pairwise_insertionSort {α β : Type} [LinearOrder β] (f : α → β) (l : List α) :
    (l.insertionSort (keyDesc f)).Pairwise (keyDesc f) :=
  List.sorted_insertionSort (keyDesc f) l

theorem sum_insertionSort {α : Type} (r : α → α → Prop) [DecidableRel r]
    (f : α → ℚ) (l : List α) :
    ((l.insertionSort r).map f).sum = (l.map f).sum :=
  ((List.perm_insertionSort r l).map f).sum_eq

/-! ## Category and merchant totals -/

theorem sum_catTotals (inM : List (Expense ℚ)) :
    ((catTotals inM).map (·.amount)).sum = (inM.map (·.amount)).sum := by
  rw [catTotals, List.map_map]
  have := sum_over_keys (·.category) (·.amount) (dedupKeys (inM.map (·.category)))
    (nodup_dedupKeys _) inM
    (fun e he => (mem_dedupKeys _ _).mpr (List.mem_map_of_mem _ he))
  simpa [Function.comp] using this

theorem mem_catTotals (inM : List (Expense ℚ)) (c : CatAmount) :
    c ∈ catTotals inM ↔
      c.category ∈ inM.map (·.category) ∧
        c.amount = ((inM.filter (fun e => e.category == c.category)).map (·.amount)).sum := by
  rw [catTotals]
  constructor
  · intro hmem
    obtain ⟨cat, hcat, rfl⟩ := List.mem_map.mp hmem
    exact ⟨(mem_dedupKeys _ _).mp hcat, rfl⟩
  · rintro ⟨hcat, hamt⟩
    refine List.mem_map.mpr ⟨c.category, (mem_dedupKeys _ _).mpr hcat, ?_⟩
    cases c
    simp_all

theorem mem_catArrOf (inM : List (Expense ℚ)) (c : CatAmount) :
    c ∈ catArrOf inM ↔
      c.category ∈ inM.map (·.category) ∧
        c.amount = ((inM.filter (fun e => e.category == c.category)).map (·.amount)).sum := by
  rw [catArrOf, List.mem_insertionSort, mem_catTotals]

theorem mem_merchTotals (inM : List (Expense ℚ)) (m : MerchAmount) :
    m ∈ merchTotals inM ↔
      m.merchant ∈ inM.map (·.merchant) ∧
        m.amount = ((inM.filter (fun e => e.merchant == m.merchant)).map (·.amount)).sum := by
  rw [merchTotals]
  constructor
  · intro hmem
    obtain ⟨mer, hmer, rfl⟩ := List.mem_map.mp hmem
    exact ⟨(mem_dedupKeys _ _).mp hmer, rfl⟩
  · rintro ⟨hmer, hamt⟩
    refine List.mem_map.mpr ⟨m.merchant, (mem_dedupKeys _ _).mpr hmer, ?_⟩
    cases m
    simp_all

/-! ## Square-root-free forms of the statistical tests -/

theorem sqrt_lt_iff_sq (v t : ℝ) : Real.sqrt v < t ↔ 0 < t ∧ v < t ^ 2 := by
  constructor
  · intro h
    have ht : 0 < t := lt_of_le_of_lt (Real.sqrt_nonneg v) h
    exact ⟨ht, (Real.sqrt_lt' ht).mp h⟩
  · rintro ⟨ht, hv⟩
    exact (Real.sqrt_lt' ht).mpr hv

theorem zscore_iff_sq (v d : ℚ) :
    (0 < Real.sqrt (v : ℝ) ∧ 2 < |(d : ℝ)| / Real.sqrt (v : ℝ)) ↔
      (0 < v ∧ 4 * v < d ^ 2) := by
  have hsqrt4 : Real.sqrt 4 = 2 := by
    rw [show (4 : ℝ) = 2 ^ 2 by norm_num, Real.sqrt_sq (by norm_num : (0:ℝ) ≤ 2)]
  constructor
  · rintro ⟨hpos, hz⟩
    have hv : 0 < v := by exact_mod_cast Real.sqrt_pos.mp hpos
    have hz' : 2 * Real.sqrt (v : ℝ) < |(d : ℝ)| := (lt_div_iff hpos).mp hz
    have h4v : Real.sqrt (4 * (v : ℝ)) < |(d : ℝ)| := by
      rwa [Real.sqrt_mul (by norm_num : (0:ℝ) ≤ 4), hsqrt4]
    have habs : 0 < |(d : ℝ)| := lt_of_le_of_lt (by positivity) h4v
    have := (Real.sqrt_lt' habs).mp h4v
    rw [sq_abs] at this
    constructor
    · exact hv
    · exact_mod_cast this
  · rintro ⟨hv, hd⟩
    have hpos : 0 < Real.sqrt (v : ℝ) := Real.sqrt_pos.mpr (by exact_mod_cast hv)
    have hd' : 4 * (v : ℝ) < (d : ℝ) ^ 2 := by exact_mod_cast hd
    have habs : 0 < |(d : ℝ)| := by
      have h2 : 0 < (d : ℝ) ^ 2 := lt_of_le_of_lt (by positivity) hd'
      have := abs_pos.mpr (pow_ne_zero_iff (n := 2) (by norm_num) |>.mp h2.ne')
      exact this
    refine ⟨hpos, (lt_div_iff hpos).mpr ?_⟩
    have h4v : Real.sqrt (4 * (v : ℝ)) < |(d : ℝ)| := by
      rw [← sq_abs] at hd'
      exact (Real.sqrt_lt' habs).mpr hd'
    rwa [Real.sqrt_mul (by norm_num : (0:ℝ) ≤ 4), hsqrt4] at h4v

theorem listVar_nonneg (l : List ℚ) : 0 ≤ listVar l := by
  rw [listVar]
  apply div_nonneg
  · apply List.sum_nonneg
    intro x hx
    obtain ⟨y, _, rfl⟩ := List.mem_map.mp hx
    positivity
  · positivity

/-! ## Membership characterizations of the derived aggregates -/

theorem mem_outliersOf (inM : List (Expense ℚ)) (t : Expense ℚ) :
    t ∈ outliersOf inM ↔
      t ∈ inM ∧
        3 ≤ (inM.filter (fun e => e.category == t.category)).length ∧
        0 < listVar ((inM.filter (fun e => e.category == t.category)).map (·.amount)) ∧
        4 * listVar ((inM.filter (fun e => e.category == t.category)).map (·.amount)) <
          (t.amount - listMean ((inM.filter (fun e => e.category == t.category)).map (·.amount))) ^ 2 := by
  rw [outliersOf, List.mem_flatMap]
  constructor
  · rintro ⟨c, _, hmem⟩
    simp only at hmem
    split_ifs at hmem with hlen
    · exact absurd hmem (List.not_mem_nil t)
    · obtain ⟨hgrp, hpred⟩ := List.mem_filter.mp hmem
      obtain ⟨hinM, hcatb⟩ := List.mem_filter.mp hgrp
      have hcat : t.category = c := by simpa using hcatb
      subst hcat
      simp only [Bool.and_eq_true, decide_eq_true_eq] at hpred
      rw [List.length_map] at hlen
      exact ⟨hinM, by omega, hpred.1, hpred.2⟩
  · rintro ⟨hinM, hlen, hv, hz⟩
    refine ⟨t.category, (mem_dedupKeys _ _).mpr (List.mem_map_of_mem _ hinM), ?_⟩
    simp only
    have hgrp : t ∈ inM.filter (fun e => e.category == t.category) :=
      List.mem_filter.mpr ⟨hinM, by simp⟩
    rw [if_neg (by rw [List.length_map]; omega)]
    exact List.mem_filter.mpr ⟨hgrp, by simp only [Bool.and_eq_true, decide_eq_true_eq]; exact ⟨hv, hz⟩⟩

theorem mem_budgetFlagsOf (budgets : Budgets) (inM : List (Expense ℚ)) (fl : BudgetFlag) :
    fl ∈ budgetFlagsOf budgets inM ↔
      fl.category ∈ inM.map (·.category) ∧
        fl.amount = ((inM.filter (fun e => e.category == fl.category)).map (·.amount)).sum ∧
        fl.budget = budgetOf budgets fl.category ∧
        0 < fl.budget ∧ fl.budget < fl.amount ∧
        fl.overBy = fl.amount - fl.budget := by
  rw [budgetFlagsOf, List.mem_insertionSort, List.mem_filter]
  constructor
  · rintro ⟨hmap, hcond⟩
    obtain ⟨c, hc, rfl⟩ := List.mem_map.mp hmap
    have hc' := (mem_catArrOf inM c).mp hc
    simp only [Bool.and_eq_true, decide_eq_true_eq] at hcond
    refine ⟨hc'.1, hc'.2, rfl, hcond.1, hcond.2, ?_⟩
    simp only
    rw [max_eq_right]
    linarith [hcond.1, hcond.2]
  · rintro ⟨hcat, hamt, hbud, hpos, hlt, hover⟩
    constructor
    · refine List.mem_map.mpr ⟨⟨fl.category, fl.amount⟩, (mem_catArrOf _ _).mpr ⟨hcat, hamt⟩, ?_⟩
      cases fl with
      | mk c a b o =>
        simp only at hbud hover hpos hlt ⊢
        rw [← hbud, hover, max_eq_right (by linarith)]
    · simp only [Bool.and_eq_true, decide_eq_true_eq]
      exact ⟨hpos, hlt⟩

theorem mem_smallDrainsOf (inM : List (Expense ℚ)) (s : SmallDrain) :
    s ∈ smallDrainsOf inM → 5 ≤ s.count := by
  intro h
  rw [smallDrainsOf] at h
  simp only [List.mem_filter, decide_eq_true_eq] at h
  exact h.2

theorem mem_detectRecurring (mk : String → String) (expenses : List (Expense ℚ))
    (r : RecEntry) :
    r ∈ detectRecurring mk expenses ↔
      r.merchant ∈ expenses.map (·.merchant) ∧
        2 ≤ (merchantMonths mk expenses r.merchant).length ∧
        0 < listMean (merchantMonthlyAvgs mk expenses r.merchant) * 0.2 ∧
        listVar (merchantMonthlyAvgs mk expenses r.merchant) <
          (listMean (merchantMonthlyAvgs mk expenses r.merchant) * 0.2) ^ 2 ∧
        r.mean = round (listMean (merchantMonthlyAvgs mk expenses r.merchant)) ∧
        r.months = (merchantMonths mk expenses r.merchant).length := by
  rw [detectRecurring, List.mem_insertionSort, List.mem_filterMap]
  constructor
  · rintro ⟨m, hm, hsome⟩
    simp only at hsome
    by_cases hlen : (merchantMonths mk expenses m).length < 2
    · rw [if_pos hlen] at hsome
      exact absurd hsome (by simp)
    · rw [if_neg hlen] at hsome
      by_cases hqual :
          (decide (0 < listMean (merchantMonthlyAvgs mk expenses m) * 0.2) &&
              decide (listVar (merchantMonthlyAvgs mk expenses m) <
                (listMean (merchantMonthlyAvgs mk expenses m) * 0.2) ^ 2)) = true
      · rw [if_pos hqual] at hsome
        simp only [Bool.and_eq_true, decide_eq_true_eq] at hqual
        have hr : r = ⟨m, round (listMean (merchantMonthlyAvgs mk expenses m)),
            (merchantMonths mk expenses m).length⟩ := (Option.some_inj.mp hsome).symm
        subst hr
        dsimp only
        exact ⟨(mem_dedupKeys _ _).mp hm, by omega, hqual.1, hqual.2, rfl, rfl⟩
      · rw [if_neg hqual] at hsome
        exact absurd hsome (by simp)
  · rintro ⟨hmer, hlen, hm1, hm2, hmean, hmonths⟩
    refine ⟨r.merchant, (mem_dedupKeys _ _).mpr hmer, ?_⟩
    simp only
    rw [if_neg (by omega)]
    rw [if_pos (by simp only [Bool.and_eq_true, decide_eq_true_eq]; exact ⟨hm1, hm2⟩)]
    cases r with
    | mk m mean months =>
      simp only at hmean hmonths
      rw [hmean, hmonths]

/-! ## Removing an out-of-month transaction -/

theorem inMonthOf_removal (mk : String → String) (l1 l2 : List (Expense ℚ))
    (t : Expense ℚ) (month : String) (h : mk t.date ≠ month) :
    inMonthOf mk (l1 ++ t :: l2) month = inMonthOf mk (l1 ++ l2) month := by
  simp only [inMonthOf, List.filter_append, List.filter_cons]
  have : (mk t.date == month) = false := by simpa using h
  rw [this]
  simp

/-! ## Coercion of malformed amounts (claim C1) -/

theorem coerceOrZero_eq_specAmount (a : JSAmount) (h : coerceOrZero a ≠ none) :
    coerceOrZero a = some (specAmount a) := by
  cases a with
  | num q => rfl
  | nan => rfl
  | str p => cases p with
    | none => exact absurd rfl h
    | some q => rfl
  | undef => rfl

theorem foldl_jadd_eq_sum (l : List (Expense JSAmount))
    (h : ∀ e ∈ l, coerceOrZero e.amount ≠ none) :
    ∀ s : ℚ,
      l.foldl (fun s e => jadd s (coerceOrZero e.amount)) (some s) =
        some (s + (l.map (fun e => specAmount e.amount)).sum) := by
  induction l with
  | nil => simp
  | cons e t ih =>
    intro s
    rw [List.foldl_cons,
      coerceOrZero_eq_specAmount e.amount (h e (List.mem_cons_self e t))]
    have : jadd (some s) (some (specAmount e.amount)) = some (s + specAmount e.amount) := rfl
    rw [this, ih (fun x hx => h x (List.mem_cons_of_mem e hx))]
    simp [add_assoc]

/-- Expense whose amount is a non-empty string that does not parse as a
number (for instance `"abc"`, whose JavaScript numeric parse is `NaN`). -/
def strAmountExpense : Expense JSAmount :=
  ⟨"e1", "2024-03-07", .str none, "Dining", "CafeX", "", false⟩

/-- C1, counterexample: for the one-transaction input whose amount is a
non-numeric non-empty string, the total computed by `analyze` (lines
204-205) is `NaN`, not the value the claim prescribes (the sum with
non-numeric amounts replaced by `0`, here `0`): `Number("abc" || 0)` is
`Number("abc") = NaN`, because a non-empty string is truthy. -/
theorem C1_counterexample :
    totalJS monthKeyISO [strAmountExpense] "2024-03" ≠
      some (specTotal monthKeyISO [strAmountExpense] "2024-03") := by
  decide

/-- C1, amended: amounts that are absent, `NaN`, a number, or a string
with a numeric parse (the empty string included) are coerced by
`Number(e.amount || 0)` exactly as the claim states — absent and
non-numeric falsy values become `0` — and for every input all of whose
amounts are of these shapes the returned total is the plain sum of the
coerced values, and the computation never raises (the model is a total
function).  Only a non-empty string without a numeric parse escapes the
replacement and turns the total into `NaN` (see the counterexample). -/
theorem C1_total_coercion (mk : String → String) (expenses : List (Expense JSAmount))
    (month : String) (h : ∀ e ∈ expenses, coerceOrZero e.amount ≠ none) :
    totalJS mk expenses month = some (specTotal mk expenses month) := by
  rw [totalJS, specTotal,
    foldl_jadd_eq_sum _ (fun e he => h e (List.mem_filter.mp he).1)]
  simp

/-- List with one absent amount, one `NaN` amount, one numeric-string
amount and one plain amount in the focus month, plus an out-of-month
expense. -/
def mixedAmountList : List (Expense JSAmount) :=
  [⟨"w1", "2024-03-01", .num 250, "Transport", "Uber", "", true⟩,
   ⟨"w2", "2024-03-02", .undef, "Groceries", "BigBazaar", "", true⟩,
   ⟨"w3", "2024-03-03", .nan, "Dining", "Swiggy", "", false⟩,
   ⟨"w4", "2024-03-04", .str (some 99), "Dining", "Zomato", "", false⟩,
   ⟨"w5", "2024-04-05", .num 1000, "Rent", "Landlord", "", true⟩]

theorem C1_total_coercion_witness :
    (∀ e ∈ mixedAmountList, coerceOrZero e.amount ≠ none) ∧
      totalJS monthKeyISO mixedAmountList "2024-03" =
        some (specTotal monthKeyISO mixedAmountList "2024-03") :=
  ⟨by decide, C1_total_coercion monthKeyISO mixedAmountList "2024-03" (by decide)⟩

/-! ## Outliers (claim C2) -/

/-- C2: a transaction is in the outliers list iff it is in the month, its
category has at least three in-month transactions, the population standard
deviation of the in-month amounts of the category is strictly positive, and its
z-score strictly exceeds 2.  In particular a category with fewer than
three in-month transactions never contributes an outlier, and a zero
standard deviation skips the test. -/
theorem C2_outlier_characterization (mk : String → String)
    (expenses : List (Expense ℚ)) (budgets : Budgets) (month : String)
    (t : Expense ℚ) :
    t ∈ (analyze mk expenses budgets month).outliers ↔
      t ∈ (analyze mk expenses budgets month).inMonth ∧
        3 ≤ ((analyze mk expenses budgets month).inMonth.filter
            (fun e => e.category == t.category)).length ∧
        0 < Real.sqrt (listVar (((analyze mk expenses budgets month).inMonth.filter
            (fun e => e.category == t.category)).map (·.amount)) : ℝ) ∧
        2 < |(t.amount : ℝ) - (listMean (((analyze mk expenses budgets month).inMonth.filter
            (fun e => e.category == t.category)).map (·.amount)) : ℝ)| /
          Real.sqrt (listVar (((analyze mk expenses budgets month).inMonth.filter
            (fun e => e.category == t.category)).map (·.amount)) : ℝ) := by
  rw [analyze_outliers, analyze_inMonth, mem_outliersOf]
  set arr := ((inMonthOf mk expenses month).filter
    (fun e => e.category == t.category)).map (·.amount) with harr
  have hcast : ((t.amount - listMean arr : ℚ) : ℝ) = (t.amount : ℝ) - (listMean arr : ℝ) := by
    push_cast
    ring
  have hz := zscore_iff_sq (listVar arr) (t.amount - listMean arr)
  rw [hcast] at hz
  constructor
  · rintro ⟨h1, h2, h3, h4⟩
    have := hz.mpr ⟨h3, h4⟩
    exact ⟨h1, h2, this.1, this.2⟩
  · rintro ⟨h1, h2, h3, h4⟩
    have := hz.mp ⟨h3, h4⟩
    exact ⟨h1, h2, this.1, this.2⟩

/-! ## Recurrence detection (claim C3) -/

theorem stdev_lt_iff (v mean : ℚ) :
    Real.sqrt (v : ℝ) < (mean : ℝ) * 0.2 ↔ (0 < mean * 0.2 ∧ v < (mean * 0.2) ^ 2) := by
  rw [sqrt_lt_iff_sq]
  constructor
  · rintro ⟨h1, h2⟩
    constructor
    · have : ((mean * 0.2 : ℚ) : ℝ) = (mean : ℝ) * 0.2 := by push_cast; ring
      rw [← this] at h1
      exact_mod_cast h1
    · have : (((mean * 0.2) ^ 2 : ℚ) : ℝ) = ((mean : ℝ) * 0.2) ^ 2 := by push_cast; norm_num
      rw [← this] at h2
      exact_mod_cast h2
  · rintro ⟨h1, h2⟩
    constructor
    · have : ((mean * 0.2 : ℚ) : ℝ) = (mean : ℝ) * 0.2 := by push_cast; ring
      rw [← this]
      exact_mod_cast h1
    · have : (((mean * 0.2) ^ 2 : ℚ) : ℝ) = ((mean : ℝ) * 0.2) ^ 2 := by push_cast; norm_num
      rw [← this]
      exact_mod_cast h2

/-- C3: `detectRecurring` reports exactly the merchants observed in at
least two distinct month keys whose monthly averages (the average of the
amounts of each month, not their sum) satisfy `stdev < mean * 0.2` for the
population standard deviation; each entry carries the rounded mean and the
count of distinct observed months; the output is sorted non-increasingly
by the (rounded) mean.  A merchant observed in exactly one distinct month
therefore never appears. -/
theorem C3_recurring_characterization (mk : String → String)
    (expenses : List (Expense ℚ)) :
    (∀ r : RecEntry,
        r ∈ detectRecurring mk expenses ↔
          r.merchant ∈ expenses.map (·.merchant) ∧
            2 ≤ (merchantMonths mk expenses r.merchant).length ∧
            Real.sqrt (listVar (merchantMonthlyAvgs mk expenses r.merchant) : ℝ) <
              (listMean (merchantMonthlyAvgs mk expenses r.merchant) : ℝ) * 0.2 ∧
            r.mean = round (listMean (merchantMonthlyAvgs mk expenses r.merchant)) ∧
            r.months = (merchantMonths mk expenses r.merchant).length) ∧
      (detectRecurring mk expenses).Pairwise (keyDesc RecEntry.mean) := by
  constructor
  · intro r
    rw [mem_detectRecurring,
      stdev_lt_iff (listVar (merchantMonthlyAvgs mk expenses r.merchant))
        (listMean (merchantMonthlyAvgs mk expenses r.merchant))]
    tauto
  · rw [detectRecurring]
    exact pairwise_insertionSort RecEntry.mean _

/-! ## Budget flags (claim C4) -/

/-- Expense used by the worked example of the specification: Groceries
spend of 1200 against a Groceries budget of 1000. -/
def groceriesExpense : Expense ℚ :=
  ⟨"g1", "2024-03-02", 1200, "Groceries", "BigBazaar", "weekly veg", true⟩

/-- C4: the budget flags are exactly the categories with a strictly
positive budget whose in-month spend strictly exceeds it; each entry
carries the category, the in-month spend, the budget and
`overBy = spent - budget`; the list is sorted non-increasingly by
`overBy`; a category with no stored budget entry, or stored budget `0`,
reads as budget `0` (`budgetOf`) and is excluded.  The worked example of
the specification is checked verbatim in the last conjunct. -/
theorem C4_budget_flags :
    (∀ (mk : String → String) (expenses : List (Expense ℚ)) (budgets : Budgets)
        (month : String) (fl : BudgetFlag),
        fl ∈ (analyze mk expenses budgets month).budgetFlags ↔
          fl.category ∈ (analyze mk expenses budgets month).inMonth.map (·.category) ∧
            fl.amount = (((analyze mk expenses budgets month).inMonth.filter
                (fun e => e.category == fl.category)).map (·.amount)).sum ∧
            fl.budget = budgetOf budgets fl.category ∧
            0 < fl.budget ∧ fl.budget < fl.amount ∧
            fl.overBy = fl.amount - fl.budget) ∧
      (∀ (mk : String → String) (expenses : List (Expense ℚ)) (budgets : Budgets)
        (month : String),
        (analyze mk expenses budgets month).budgetFlags.Pairwise (keyDesc BudgetFlag.overBy)) ∧
      (analyze monthKeyISO [groceriesExpense] [("Groceries", 1000)] "2024-03").budgetFlags =
        [⟨"Groceries", 1200, 1000, 200⟩] := by
  refine ⟨?_, ?_, by decide⟩
  · intro mk expenses budgets month fl
    rw [analyze_budgetFlags, analyze_inMonth]
    exact mem_budgetFlagsOf budgets (inMonthOf mk expenses month) fl
  · intro mk expenses budgets month
    rw [analyze_budgetFlags, budgetFlagsOf]
    exact pairwise_insertionSort BudgetFlag.overBy _

/-! ## Suggestion ranking (claim C5) -/

theorem trimWantsOf_length (a : Analysis) : (trimWantsOf a).length ≤ 1 := by
  rw [trimWantsOf]
  split <;> simp

theorem overBudgetOf_length (a : Analysis) : (overBudgetOf a).length ≤ 1 := by
  rw [overBudgetOf]
  cases a.budgetFlags <;> simp

theorem smallSpendsOf_length (a : Analysis) : (smallSpendsOf a).length ≤ 1 := by
  rw [smallSpendsOf]
  cases a.smallDrains <;> simp

theorem topMerchantOf_length (a : Analysis) : (topMerchantOf a).length ≤ 1 := by
  rw [topMerchantOf]
  cases a.topMerchants <;> simp

theorem recurringSuggOf_length (a : Analysis) : (recurringSuggOf a).length ≤ 1 := by
  rw [recurringSuggOf]
  cases a.recurring.filter (fun r => decide (200 ≤ r.mean)) <;> simp

theorem candidateList_length (a : Analysis) : (candidateList a).length ≤ 5 := by
  rw [candidateList]
  simp only [List.length_append]
  have h1 := trimWantsOf_length a
  have h2 := overBudgetOf_length a
  have h3 := smallSpendsOf_length a
  have h4 := topMerchantOf_length a
  have h5 := recurringSuggOf_length a
  omega

theorem suggestions_eq_sorted (a : Analysis) :
    suggestions a = (candidateList a).insertionSort (keyDesc Suggestion.impact) := by
  rw [suggestions]
  apply List.take_of_length_le
  rw [List.length_insertionSort]
  exact candidateList_length a

/-- C5: the ranker emits at most five suggestions, sorted non-increasingly
by impact, and the sort is stable: two candidates in generation order
whose impacts allow the first to stay first (in particular any tie) keep
their relative order in the output. -/
theorem C5_suggestion_ranking (a : Analysis) :
    (suggestions a).length ≤ 5 ∧
      (suggestions a).Pairwise (keyDesc Suggestion.impact) ∧
      (∀ x y : Suggestion, [x, y].Sublist (candidateList a) → y.impact ≤ x.impact →
        [x, y].Sublist (suggestions a)) := by
  refine ⟨?_, ?_, ?_⟩
  · rw [suggestions_eq_sorted, List.length_insertionSort]
    exact candidateList_length a
  · rw [suggestions_eq_sorted]
    exact pairwise_insertionSort Suggestion.impact _
  · intro x y hsub hle
    rw [suggestions_eq_sorted]
    exact List.pair_sublist_insertionSort hle hsub

/-- Analysis with two tied candidates: want-spend 500 (trim-wants impact
100) and top merchant of amount 1000 (impact 100). -/
def tiedAnalysis : Analysis :=
  ⟨[], 0, [], [⟨"BigMart", 1000⟩], ⟨500, 0⟩, [], [], [], []⟩

theorem C5_suggestion_ranking_witness :
    [⟨"Trim Wants", (100 : ℚ)⟩, ⟨"Top Merchant: BigMart", (100 : ℚ)⟩].Sublist
      (suggestions tiedAnalysis) :=
  (C5_suggestion_ranking tiedAnalysis).2.2 ⟨"Trim Wants", (100 : ℚ)⟩
    ⟨"Top Merchant: BigMart", (100 : ℚ)⟩ (by decide) (by decide)

/-! ## Total consistency (claim C6) -/

/-- C6: the total equals the sum of the category totals, and equals the
sum of the need and want totals. -/
theorem C6_total_consistency (mk : String → String) (expenses : List (Expense ℚ))
    (budgets : Budgets) (month : String) :
    (analyze mk expenses budgets month).total =
        (((analyze mk expenses budgets month).catArr).map (·.amount)).sum ∧
      (analyze mk expenses budgets month).total =
        (analyze mk expenses budgets month).wantsNeeds.need +
          (analyze mk expenses budgets month).wantsNeeds.want := by
  rw [analyze_total, analyze_catArr, analyze_wantsNeeds]
  constructor
  · rw [totalOf_eq_sum, catArrOf, sum_insertionSort, sum_catTotals]
  · rw [totalOf_eq_sum, wantsNeedsOf_eq]
    dsimp only
    rw [sum_filter_split (inMonthOf mk expenses month) (fun e => e.need) (·.amount)]

/-! ## Month-filter correctness (claim C7) -/

/-- C7: `inMonth` is exactly the filter of the input by month key (a
subsequence preserving input order); an out-of-month transaction is in
neither `inMonth` nor `outliers`, and removing it leaves every
month-derived field of the analysis unchanged (the `recurring` field is
computed from the full history by design and is not among the in-month
aggregates of the claim; an out-of-month transaction cannot appear in it,
since its entries are merchant summaries, not transactions). -/
theorem C7_filter_correctness (mk : String → String) (l1 l2 : List (Expense ℚ))
    (t : Expense ℚ) (budgets : Budgets) (month : String) (h : mk t.date ≠ month) :
    (analyze mk (l1 ++ t :: l2) budgets month).inMonth =
        (l1 ++ t :: l2).filter (fun e => mk e.date == month) ∧
      t ∉ (analyze mk (l1 ++ t :: l2) budgets month).inMonth ∧
      t ∉ (analyze mk (l1 ++ t :: l2) budgets month).outliers ∧
      (analyze mk (l1 ++ t :: l2) budgets month).inMonth =
        (analyze mk (l1 ++ l2) budgets month).inMonth ∧
      (analyze mk (l1 ++ t :: l2) budgets month).total =
        (analyze mk (l1 ++ l2) budgets month).total ∧
      (analyze mk (l1 ++ t :: l2) budgets month).catArr =
        (analyze mk (l1 ++ l2) budgets month).catArr ∧
      (analyze mk (l1 ++ t :: l2) budgets month).topMerchants =
        (analyze mk (l1 ++ l2) budgets month).topMerchants ∧
      (analyze mk (l1 ++ t :: l2) budgets month).wantsNeeds =
        (analyze mk (l1 ++ l2) budgets month).wantsNeeds ∧
      (analyze mk (l1 ++ t :: l2) budgets month).budgetFlags =
        (analyze mk (l1 ++ l2) budgets month).budgetFlags ∧
      (analyze mk (l1 ++ t :: l2) budgets month).smallDrains =
        (analyze mk (l1 ++ l2) budgets month).smallDrains ∧
      (analyze mk (l1 ++ t :: l2) budgets month).outliers =
        (analyze mk (l1 ++ l2) budgets month).outliers := by
  have hIn := inMonthOf_removal mk l1 l2 t month h
  have hnot : t ∉ inMonthOf mk (l1 ++ t :: l2) month := by
    intro hmem
    exact h (by simpa using (List.mem_filter.mp hmem).2)
  refine ⟨rfl, ?_, ?_, ?_, ?_, ?_, ?_, ?_, ?_, ?_, ?_⟩
  · rw [analyze_inMonth]
    exact hnot
  · rw [analyze_outliers]
    intro hmem
    exact hnot ((mem_outliersOf _ t).mp hmem).1
  · rw [analyze_inMonth, analyze_inMonth, hIn]
  · rw [analyze_total, analyze_total, hIn]
  · rw [analyze_catArr, analyze_catArr, hIn]
  · rw [analyze_topMerchants, analyze_topMerchants, hIn]
  · rw [analyze_wantsNeeds, analyze_wantsNeeds, hIn]
  · rw [analyze_budgetFlags, analyze_budgetFlags, hIn]
  · rw [analyze_smallDrains, analyze_smallDrains, hIn]
  · rw [analyze_outliers, analyze_outliers, hIn]

/-- In-month expense for the C7 witness. -/
def marchExpense1 : Expense ℚ :=
  ⟨"m1", "2024-03-03", 250, "Transport", "Uber", "", true⟩

/-- Second in-month expense for the C7 witness. -/
def marchExpense2 : Expense ℚ :=
  ⟨"m2", "2024-03-20", 399, "Dining", "Swiggy", "", false⟩

/-- Out-of-month expense for the C7 witness. -/
def aprilExpense : Expense ℚ :=
  ⟨"a1", "2024-04-02", 5000, "Rent", "Landlord", "", true⟩

theorem C7_filter_correctness_witness :
    (analyze monthKeyISO ([marchExpense1] ++ aprilExpense :: [marchExpense2]) []
        "2024-03").total =
      (analyze monthKeyISO ([marchExpense1] ++ [marchExpense2]) [] "2024-03").total :=
  (C7_filter_correctness monthKeyISO [marchExpense1] [marchExpense2] aprilExpense []
      "2024-03" (by decide)).2.2.2.2.1

/-! ## Sort invariants (claim C8) -/

/-- C8: category totals, top merchants and budget flags are each
non-increasing by their amount key (`overBy` for flags); the top-merchant
list has exactly `min 5 (number of distinct in-month merchants)` entries —
at most five, shorter when fewer merchants exist, never padded. -/
theorem C8_sort_invariants (mk : String → String) (expenses : List (Expense ℚ))
    (budgets : Budgets) (month : String) :
    (analyze mk expenses budgets month).catArr.Pairwise (keyDesc CatAmount.amount) ∧
      (analyze mk expenses budgets month).topMerchants.Pairwise
        (keyDesc MerchAmount.amount) ∧
      (analyze mk expenses budgets month).budgetFlags.Pairwise
        (keyDesc BudgetFlag.overBy) ∧
      (analyze mk expenses budgets month).topMerchants.length ≤ 5 ∧
      (analyze mk expenses budgets month).topMerchants.length =
        min 5 (dedupKeys ((analyze mk expenses budgets month).inMonth.map
          (·.merchant))).length := by
  refine ⟨?_, ?_, ?_, ?_, ?_⟩
  · rw [analyze_catArr, catArrOf]
    exact pairwise_insertionSort CatAmount.amount _
  · rw [analyze_topMerchants, topMerchantsOf]
    exact List.Pairwise.sublist (List.take_sublist 5 _)
      (pairwise_insertionSort MerchAmount.amount _)
  · rw [analyze_budgetFlags, budgetFlagsOf]
    exact pairwise_insertionSort BudgetFlag.overBy _
  · rw [analyze_topMerchants, topMerchantsOf, List.length_take]
    exact min_le_left 5 _
  · rw [analyze_topMerchants, analyze_inMonth, topMerchantsOf, List.length_take,
      List.length_insertionSort, merchTotals, List.length_map]

/-! ## Trim-wants guard (claim C9) -/

theorem inMonth_amount_nonneg (mk : String → String) (expenses : List (Expense ℚ))
    (month : String) (h : ∀ e ∈ expenses, 0 ≤ e.amount) :
    ∀ e ∈ inMonthOf mk expenses month, 0 ≤ e.amount :=
  fun e he => h e (List.mem_filter.mp he).1

theorem want_nonneg (inM : List (Expense ℚ)) (h : ∀ e ∈ inM, 0 ≤ e.amount) :
    0 ≤ (wantsNeedsOf inM).want := by
  rw [wantsNeedsOf_eq]
  apply List.sum_nonneg
  intro x hx
  obtain ⟨e, he, rfl⟩ := List.mem_map.mp hx
  exact h e (List.mem_filter.mp he).1

theorem need_nonneg (inM : List (Expense ℚ)) (h : ∀ e ∈ inM, 0 ≤ e.amount) :
    0 ≤ (wantsNeedsOf inM).need := by
  rw [wantsNeedsOf_eq]
  apply List.sum_nonneg
  intro x hx
  obtain ⟨e, he, rfl⟩ := List.mem_map.mp hx
  exact h e (List.mem_filter.mp he).1

theorem totalOf_eq_need_add_want (inM : List (Expense ℚ)) :
    totalOf inM = (wantsNeedsOf inM).need + (wantsNeedsOf inM).want := by
  rw [totalOf_eq_sum, wantsNeedsOf_eq]
  dsimp only
  rw [sum_filter_split inM (fun e => e.need) (·.amount)]

/-- C9: the trim-wants candidate is emitted exactly when the want-spend is
strictly positive, with `impact = want * 0.2`; the denominator of the
percentage in its body is never zero (`total || 1` replaces a zero total
by `1`), so the ratio is always a well-defined finite rational; and for
non-negative amounts a zero total forces a zero want-spend, hence a `0`
percentage. -/
theorem C9_trim_wants_guard (mk : String → String) (expenses : List (Expense ℚ))
    (budgets : Budgets) (month : String) (h : ∀ e ∈ expenses, 0 ≤ e.amount) :
    (trimWantsOf (analyze mk expenses budgets month) ≠ [] ↔
        0 < (analyze mk expenses budgets month).wantsNeeds.want) ∧
      (∀ s ∈ trimWantsOf (analyze mk expenses budgets month),
        s.impact = (analyze mk expenses budgets month).wantsNeeds.want * 0.2) ∧
      ((if (analyze mk expenses budgets month).total = 0 then (1 : ℚ)
          else (analyze mk expenses budgets month).total) ≠ 0) ∧
      ((analyze mk expenses budgets month).total = 0 →
        trimWantsRatio (analyze mk expenses budgets month) = 0) := by
  have hnn := inMonth_amount_nonneg mk expenses month h
  refine ⟨?_, ?_, ?_, ?_⟩
  · by_cases h0 : 0 < (analyze mk expenses budgets month).wantsNeeds.want <;>
      simp [trimWantsOf, h0]
  · intro s hs
    rw [trimWantsOf] at hs
    by_cases h0 : 0 < (analyze mk expenses budgets month).wantsNeeds.want
    · rw [if_pos h0] at hs
      obtain rfl := List.mem_singleton.mp hs
      rfl
    · rw [if_neg h0] at hs
      exact absurd hs (List.not_mem_nil s)
  · split_ifs with h0
    · exact one_ne_zero
    · exact h0
  · intro h0
    have hw : (analyze mk expenses budgets month).wantsNeeds.want = 0 := by
      have h1 := want_nonneg (inMonthOf mk expenses month) hnn
      have h2 := need_nonneg (inMonthOf mk expenses month) hnn
      have h3 := totalOf_eq_need_add_want (inMonthOf mk expenses month)
      rw [analyze_total] at h0
      rw [analyze_wantsNeeds]
      rw [h0] at h3
      linarith
    rw [trimWantsRatio, hw, h0]
    simp

/-- One discretionary in-month expense, for the C9 witness. -/
def wantsExpense : Expense ℚ :=
  ⟨"w1", "2024-03-01", 500, "Dining", "Zomato", "", false⟩

theorem C9_trim_wants_guard_witness :
    trimWantsOf (analyze monthKeyISO [wantsExpense] [] "2024-03") ≠ [] :=
  ((C9_trim_wants_guard monthKeyISO [wantsExpense] [] "2024-03" (by decide)).1).mpr
    (by decide)

/-! ## Impact bounds (claim C10) -/

theorem mem_candidateList_of_mem_suggestions (a : Analysis) (s : Suggestion)
    (hs : s ∈ suggestions a) : s ∈ candidateList a := by
  rw [suggestions] at hs
  exact (List.mem_insertionSort _).mp (List.take_subset 5 _ hs)

theorem mem_trimWantsOf {a : Analysis} {s : Suggestion} (hs : s ∈ trimWantsOf a) :
    0 < a.wantsNeeds.want ∧ s = ⟨"Trim Wants", a.wantsNeeds.want * 0.2⟩ := by
  rw [trimWantsOf] at hs
  by_cases h0 : 0 < a.wantsNeeds.want
  · rw [if_pos h0] at hs
    exact ⟨h0, List.mem_singleton.mp hs⟩
  · rw [if_neg h0] at hs
    exact absurd hs (List.not_mem_nil s)

theorem mem_overBudgetOf {a : Analysis} {s : Suggestion} (hs : s ∈ overBudgetOf a) :
    ∃ b ∈ a.budgetFlags,
      s = ⟨"Over Budget: " ++ b.category, min b.overBy (b.amount * 0.25)⟩ := by
  unfold overBudgetOf at hs
  rcases hbf : a.budgetFlags with _ | ⟨b, rest⟩ <;> rw [hbf] at hs
  · exact absurd hs (List.not_mem_nil s)
  · exact ⟨b, List.mem_cons_self b rest, List.mem_singleton.mp hs⟩

theorem mem_smallSpendsOf {a : Analysis} {s : Suggestion} (hs : s ∈ smallSpendsOf a) :
    ∃ d ∈ a.smallDrains,
      s = ⟨"Frequent small spends at " ++ d.merchant, 100 * (d.count : ℚ) * 0.4⟩ := by
  unfold smallSpendsOf at hs
  rcases hsd : a.smallDrains with _ | ⟨d, rest⟩ <;> rw [hsd] at hs
  · exact absurd hs (List.not_mem_nil s)
  · exact ⟨d, List.mem_cons_self d rest, List.mem_singleton.mp hs⟩

theorem mem_topMerchantOf {a : Analysis} {s : Suggestion} (hs : s ∈ topMerchantOf a) :
    ∃ t ∈ a.topMerchants, s = ⟨"Top Merchant: " ++ t.merchant, t.amount * 0.1⟩ := by
  unfold topMerchantOf at hs
  rcases htm : a.topMerchants with _ | ⟨t, rest⟩ <;> rw [htm] at hs
  · exact absurd hs (List.not_mem_nil s)
  · exact ⟨t, List.mem_cons_self t rest, List.mem_singleton.mp hs⟩

theorem mem_recurringSuggOf {a : Analysis} {s : Suggestion} (hs : s ∈ recurringSuggOf a) :
    ∃ r ∈ a.recurring, 200 ≤ r.mean ∧ s = ⟨"Recurring: " ++ r.merchant, (r.mean : ℚ)⟩ := by
  unfold recurringSuggOf at hs
  rcases hr : a.recurring.filter (fun r => decide (200 ≤ r.mean)) with _ | ⟨r, rest⟩ <;>
    rw [hr] at hs
  · exact absurd hs (List.not_mem_nil s)
  · have hrmem : r ∈ a.recurring.filter (fun r => decide (200 ≤ r.mean)) := by
      rw [hr]
      exact List.mem_cons_self r rest
    have := List.mem_filter.mp hrmem
    exact ⟨r, this.1, by simpa using this.2, List.mem_singleton.mp hs⟩

theorem topMerchantsOf_amount_nonneg (inM : List (Expense ℚ))
    (h : ∀ e ∈ inM, 0 ≤ e.amount) :
    ∀ t ∈ topMerchantsOf inM, 0 ≤ t.amount := by
  intro t ht
  rw [topMerchantsOf] at ht
  have hmem := (List.mem_insertionSort _).mp (List.take_subset 5 _ ht)
  rw [(mem_merchTotals inM t).mp hmem |>.2]
  apply List.sum_nonneg
  intro x hx
  obtain ⟨e, he, rfl⟩ := List.mem_map.mp hx
  exact h e (List.mem_filter.mp he).1

/-- C10: with non-negative amounts every emitted suggestion has a
non-negative impact, and a frequent-small-spends suggestion always has
impact at least 200 because its merchant count is at least 5 and
`impact = 100 * count * 0.4`. -/
theorem C10_impact_bounds (mk : String → String) (expenses : List (Expense ℚ))
    (budgets : Budgets) (month : String) (h : ∀ e ∈ expenses, 0 ≤ e.amount) :
    (∀ s ∈ suggestions (analyze mk expenses budgets month), 0 ≤ s.impact) ∧
      (∀ s ∈ smallSpendsOf (analyze mk expenses budgets month), 200 ≤ s.impact) := by
  have hnn := inMonth_amount_nonneg mk expenses month h
  have hsmall : ∀ s ∈ smallSpendsOf (analyze mk expenses budgets month),
      200 ≤ s.impact := by
    intro s hs
    obtain ⟨d, hd, rfl⟩ := mem_smallSpendsOf hs
    rw [analyze_smallDrains] at hd
    have hcount := mem_smallDrainsOf _ _ hd
    have hc : (5 : ℚ) ≤ (d.count : ℚ) := by exact_mod_cast hcount
    dsimp only
    nlinarith
  refine ⟨?_, hsmall⟩
  intro s hs
  have hc := mem_candidateList_of_mem_suggestions _ _ hs
  rw [candidateList] at hc
  simp only [List.mem_append] at hc
  rcases hc with (((hc | hc) | hc) | hc) | hc
  · obtain ⟨h0, rfl⟩ := mem_trimWantsOf hc
    exact mul_nonneg h0.le (by norm_num)
  · obtain ⟨b, hb, rfl⟩ := mem_overBudgetOf hc
    rw [analyze_budgetFlags] at hb
    have hfacts := (mem_budgetFlagsOf budgets _ b).mp hb
    obtain ⟨-, -, -, hbpos, hblt, hover⟩ := hfacts
    dsimp only
    apply le_min
    · rw [hover]
      linarith
    · exact mul_nonneg (by linarith) (by norm_num)
  · have := hsmall s hc
    linarith
  · obtain ⟨t, ht, rfl⟩ := mem_topMerchantOf hc
    rw [analyze_topMerchants] at ht
    exact mul_nonneg (topMerchantsOf_amount_nonneg _ hnn t ht) (by norm_num)
  · obtain ⟨r, -, hr200, rfl⟩ := mem_recurringSuggOf hc
    have : (200 : ℚ) ≤ (r.mean : ℚ) := by exact_mod_cast hr200
    dsimp only
    linarith

/-- Five sub-200 discretionary purchases at one merchant in the focus
month, for the C10 witness. -/
def chaiList : List (Expense ℚ) :=
  [⟨"c1", "2024-03-01", 50, "Dining", "ChaiPoint", "", false⟩,
   ⟨"c2", "2024-03-02", 50, "Dining", "ChaiPoint", "", false⟩,
   ⟨"c3", "2024-03-03", 50, "Dining", "ChaiPoint", "", false⟩,
   ⟨"c4", "2024-03-04", 50, "Dining", "ChaiPoint", "", false⟩,
   ⟨"c5", "2024-03-05", 50, "Dining", "ChaiPoint", "", false⟩]

theorem C10_impact_bounds_witness :
    (0 : ℚ) ≤ (Suggestion.mk "Trim Wants" (500 * 0.2)).impact ∧
      (200 : ℚ) ≤ (Suggestion.mk "Frequent small spends at ChaiPoint"
        (100 * (5 : ℚ) * 0.4)).impact :=
  ⟨(C10_impact_bounds monthKeyISO [wantsExpense] [] "2024-03" (by decide)).1
      ⟨"Trim Wants", 500 * 0.2⟩ (by decide),
    (C10_impact_bounds monthKeyISO chaiList [] "2024-03" (by decide)).2
      ⟨"Frequent small spends at ChaiPoint", 100 * (5 : ℚ) * 0.4⟩ (by decide)⟩

end FinanceCoach
